import Mathlib

/-!
Verification of the contact-form submission guard of `src/components/Contact.js`.

The component's helpers are pure string transforms over JavaScript strings;
we embed them as functions on `List Char`.  Regular-expression operations in
the source (`String.replace` with the `g` flag, `RegExp.test`, `String.match`)
are embedded as explicit left-to-right scans: at each position the pattern is
tried; on a match the matched characters are consumed (and dropped, since all
replacements in the source replace with the empty string or a single space)
and scanning resumes after the match, otherwise one character is copied and
scanning resumes at the next position.  Each pattern in the source is
deterministic in the sense that greedy matching never needs backtracking
(every starred class is disjoint from the character that must follow it), so
the scans below implement exactly the JavaScript semantics.

Scanning functions whose recursive call is not on a tail of the input take an
explicit fuel argument, always invoked with the length of the input; one unit
of fuel is spent per step and every step consumes at least one character, so
the fuel never runs out.  This keeps every definition structurally recursive
and kernel-computable.
-/

set_option maxRecDepth 100000

namespace ContactForm

/-- The character class of JavaScript's `\s` (whitespace), used by the
source's `\s`-based regexes and by `String.prototype.trim`. -/
def jsWs (c : Char) : Bool :=
  decide (c.toNat ∈ ([9, 10, 11, 12, 13, 32, 0xa0, 0x1680, 0x2028, 0x2029,
      0x202f, 0x205f, 0x3000, 0xfeff] : List Nat)
    ∨ (0x2000 ≤ c.toNat ∧ c.toNat ≤ 0x200a))

/-- The character class of JavaScript's `\w`: ASCII letters, digits and
underscore. -/
def isWordChar (c : Char) : Bool :=
  decide ((65 ≤ c.toNat ∧ c.toNat ≤ 90) ∨ (97 ≤ c.toNat ∧ c.toNat ≤ 122)
    ∨ (48 ≤ c.toNat ∧ c.toNat ≤ 57) ∨ c = '_')

/-- `String.prototype.trim`: drop JavaScript whitespace from both ends. -/
def trimJs (l : List Char) : List Char :=
  ((l.dropWhile jsWs).reverse.dropWhile jsWs).reverse

/-- Case-insensitive literal matcher: `matchChars pat l` succeeds when the
lowercased head of `l` spells `pat` (given in lower case), returning the
remainder.  Used for the case-insensitive (`i` flag) literal parts of the
source's regexes. -/
def matchChars : List Char → List Char → Option (List Char)
  | [], l => some l
  | _ :: _, [] => none
  | p :: ps, c :: cs => if c.toLower = p then matchChars ps cs else none

/-- Scan one step of `/<[^>]*>/` after the `<`: find the first `>` and return
the suffix after it (the greedy `[^>]*` stops exactly at the first `>`). -/
def dropThroughGt : List Char → Option (List Char)
  | [] => none
  | c :: rest => if c = '>' then some rest else dropThroughGt rest

/-- Fuel-indexed scan of `stripTags`'s `s.replace(/<[^>]*>/g, '')`. -/
def stripTagsF : Nat → List Char → List Char
  | 0, l => l
  | _ + 1, [] => []
  | f + 1, c :: rest =>
    if c = '<' then
      match dropThroughGt rest with
      | some rest' => stripTagsF f rest'
      | none => c :: stripTagsF f rest
    else c :: stripTagsF f rest

/-- `stripTags`: remove every match of `/<[^>]*>/g`.  A `<` with no later `>`
is copied unchanged, as in the source's best-effort regex. -/
def stripTags (l : List Char) : List Char :=
  stripTagsF l.length l

/-- Try `/javascript\s*:/i` at the head of `l`; on success return the suffix
after the matched text.  (`:` is not whitespace, so the greedy `\s*` needs no
backtracking.) -/
def matchJsScheme (l : List Char) : Option (List Char) :=
  match matchChars "javascript".data l with
  | none => none
  | some r =>
    match r.dropWhile jsWs with
    | ':' :: tail => some tail
    | _ => none

/-- Fuel-indexed scan of `s.replace(/javascript\s*:/gi, '')`. -/
def removeJsSchemeF : Nat → List Char → List Char
  | 0, l => l
  | _ + 1, [] => []
  | f + 1, c :: rest =>
    match matchJsScheme (c :: rest) with
    | some tail => removeJsSchemeF f tail
    | none => c :: removeJsSchemeF f rest

/-- First replacement stage of `removeDangerousUris`. -/
def removeJsScheme (l : List Char) : List Char :=
  removeJsSchemeF l.length l

/-- Whether `c` is one of the two quote characters of the event-handler
pattern `['"]`. -/
def quoteChar (c : Char) : Bool :=
  c = '\'' || c = '"'

/-- Try `/(?:on\w+)\s*=\s*['"][^'"]*['"]/i` at the head of `l`; on success
return the suffix after the matched text.  Greedy `\w+`, `\s*` and `[^'"]*`
need no backtracking because each is followed by a character outside its
class. -/
def matchOnHandler (l : List Char) : Option (List Char) :=
  match matchChars "on".data l with
  | none => none
  | some r =>
    if (r.takeWhile isWordChar).isEmpty then none
    else
      match (r.dropWhile isWordChar).dropWhile jsWs with
      | '=' :: r3 =>
        match r3.dropWhile jsWs with
        | q :: r5 =>
          if quoteChar q then
            match r5.dropWhile (fun c => !(quoteChar c)) with
            | q2 :: tail => if quoteChar q2 then some tail else none
            | [] => none
          else none
        | [] => none
      | _ => none

/-- Fuel-indexed scan of `.replace(/(?:on\w+)\s*=\s*['"][^'"]*['"]/gi, '')`. -/
def removeOnHandlersF : Nat → List Char → List Char
  | 0, l => l
  | _ + 1, [] => []
  | f + 1, c :: rest =>
    match matchOnHandler (c :: rest) with
    | some tail => removeOnHandlersF f tail
    | none => c :: removeOnHandlersF f rest

/-- Second replacement stage of `removeDangerousUris`. -/
def removeOnHandlers (l : List Char) : List Char :=
  removeOnHandlersF l.length l

/-- `removeDangerousUris`: the two chained global replaces of the source. -/
def removeDangerousUris (l : List Char) : List Char :=
  removeOnHandlers (removeJsScheme l)

/-- One global single-character replacement
`s.replace(/c/g, repl)`, the building block of `encodeHtmlEntities`. -/
def replaceChar (t : Char) (repl : List Char) : List Char → List Char
  | [] => []
  | c :: rest =>
    if c = t then repl ++ replaceChar t repl rest
    else c :: replaceChar t repl rest

/-- `encodeHtmlEntities`: the source's five chained replaces, ampersand
first. -/
def encodeHtmlEntities (l : List Char) : List Char :=
  replaceChar '\'' "&#39;".data
    (replaceChar '"' "&quot;".data
      (replaceChar '>' "&gt;".data
        (replaceChar '<' "&lt;".data
          (replaceChar '&' "&amp;".data l))))

/-- The per-character effect of `encodeHtmlEntities` (each of the five
special characters maps to its entity; every other character is kept):
the chained replaces act characterwise because no replacement string
contains a character replaced by a later stage. -/
def entChar (c : Char) : List Char :=
  if c = '&' then "&amp;".data
  else if c = '<' then "&lt;".data
  else if c = '>' then "&gt;".data
  else if c = '"' then "&quot;".data
  else if c = '\'' then "&#39;".data
  else [c]

/-- A character allowed by `[^\s@]` in the email regex. -/
def emailChar (c : Char) : Bool :=
  !(jsWs c) && c ≠ '@'

/-- `isValidEmail`: `/^[^\s@]+@[^\s@]+\.[^\s@]+$/.test(s)`.  The anchored
regex matches exactly when the string splits as `L ++ '@' ++ T` with `L`
a nonempty run of `[^\s@]` characters (necessarily the maximal such run,
since `@` is outside the class), and `T` nonempty, all `[^\s@]`, containing
a `.` that is neither its first nor its last character. -/
def isValidEmail (l : List Char) : Bool :=
  match l.dropWhile emailChar with
  | '@' :: tail =>
    !(l.takeWhile emailChar).isEmpty && tail.all emailChar
      && ((tail.drop 1).dropLast).contains '.'
  | _ => false

/-- A character of the name allowlist class
`[A-Za-zÀ-ÖØ-öø-ÿ'’.\-\s]`. -/
def nameChar (c : Char) : Bool :=
  decide ((65 ≤ c.toNat ∧ c.toNat ≤ 90) ∨ (97 ≤ c.toNat ∧ c.toNat ≤ 122)
    ∨ (0xc0 ≤ c.toNat ∧ c.toNat ≤ 0xd6) ∨ (0xd8 ≤ c.toNat ∧ c.toNat ≤ 0xf6)
    ∨ (0xf8 ≤ c.toNat ∧ c.toNat ≤ 0xff)
    ∨ c = '\'' ∨ c.toNat = 0x2019 ∨ c = '.' ∨ c = '-') || jsWs c

/-- `isValidName`: `/^[A-Za-zÀ-ÖØ-öø-ÿ'’.\-\s]{1,100}$/.test(s.trim())`. -/
def isValidName (l : List Char) : Bool :=
  let t := trimJs l
  decide (1 ≤ t.length ∧ t.length ≤ 100) && t.all nameChar

/-- Fuel-indexed scan of `out.replace(/\s+/g, ' ')`: each maximal whitespace
run becomes a single space. -/
def collapseWsF : Nat → List Char → List Char
  | 0, l => l
  | _ + 1, [] => []
  | f + 1, c :: rest =>
    if jsWs c then ' ' :: collapseWsF f (rest.dropWhile jsWs)
    else c :: collapseWsF f rest

/-- `out.replace(/\s+/g, ' ')`. -/
def collapseWs (l : List Char) : List Char :=
  collapseWsF l.length l

/-- `if (out.length > maxLen) out = out.slice(0, maxLen)`. -/
def truncateTo (maxLen : Nat) (l : List Char) : List Char :=
  if maxLen < l.length then l.take maxLen else l

/-- `sanitizeMessage`: the source's sequential pipeline over `out`. -/
def sanitizeMessage (s : List Char) (maxLen : Nat) : List Char :=
  let out := stripTags s
  let out := removeDangerousUris out
  let out := trimJs (collapseWs out)
  let out := truncateTo maxLen out
  encodeHtmlEntities out

/-- The composition stated by the specification: strip tags, then remove
dangerous URIs, then collapse whitespace and trim, then truncate, then (last)
encode entities. -/
def sanitizeMessageSpec (s : List Char) (maxLen : Nat) : List Char :=
  encodeHtmlEntities
    (truncateTo maxLen (trimJs (collapseWs (removeDangerousUris (stripTags s)))))

/-- Try the entity alternation `/&lt;|&gt;|&amp;|&quot;|&#39;/` at the head
of `l` (the five branches have pairwise distinct second characters, so the
alternation order is immaterial); on success return the suffix after the
matched entity. -/
def matchEntityAt : List Char → Option (List Char)
  | '&' :: 'l' :: 't' :: ';' :: tail => some tail
  | '&' :: 'g' :: 't' :: ';' :: tail => some tail
  | '&' :: 'a' :: 'm' :: 'p' :: ';' :: tail => some tail
  | '&' :: 'q' :: 'u' :: 'o' :: 't' :: ';' :: tail => some tail
  | '&' :: '#' :: '3' :: '9' :: ';' :: tail => some tail
  | _ => none

/-- Fuel-indexed scan of
`.replace(/&lt;|&gt;|&amp;|&quot;|&#39;/g, '')` (the handler's `decodedMsg`:
entity sequences are deleted, not decoded). -/
def stripEntitiesF : Nat → List Char → List Char
  | 0, l => l
  | _ + 1, [] => []
  | f + 1, c :: rest =>
    match matchEntityAt (c :: rest) with
    | some tail => stripEntitiesF f tail
    | none => c :: stripEntitiesF f rest

/-- The handler's `decodedMsg` transform. -/
def stripEntities (l : List Char) : List Char :=
  stripEntitiesF l.length l

/-- A character of the URL-body class: word characters plus the punctuation
`-`, `/`, `?`, `&`, `.`, `=`, `#`, `%`. -/
def urlChar (c : Char) : Bool :=
  isWordChar c || decide (c = '-' ∨ c = '/' ∨ c = '?' ∨ c = '&' ∨ c = '.'
    ∨ c = '=' ∨ c = '#' ∨ c = '%')

/-- Try the second URL alternative of the source's `urlRegex`: the literal
`www.` followed by one or more URL-body characters. -/
def matchWww (l : List Char) : Option (List Char) :=
  match matchChars "www.".data l with
  | some r =>
    if (r.takeWhile urlChar).isEmpty then none else some (r.dropWhile urlChar)
  | none => none

/-- After a literal `http`, try `s?://` (greedy `s?` first, then without). -/
def matchUrlSep (r : List Char) : Option (List Char) :=
  match matchChars "s://".data r with
  | some x => some x
  | none => matchChars "://".data r

/-- Try the source's `urlRegex` (first alternative: `http`, optional `s`,
`://`, one or more URL-body characters; second alternative: `matchWww`) at
the head of `l`; on success return the suffix after the match. -/
def matchUrl (l : List Char) : Option (List Char) :=
  match matchChars "http".data l with
  | some r =>
    match matchUrlSep r with
    | some b =>
      if (b.takeWhile urlChar).isEmpty then matchWww l
      else some (b.dropWhile urlChar)
    | none => matchWww l
  | none => matchWww l

/-- `decodedMsg.match(urlRegex)` produces at least one match exactly when the
URL pattern matches at some position. -/
def hasUrl : List Char → Bool
  | [] => false
  | c :: rest => (matchUrl (c :: rest)).isSome || hasUrl rest

/-- Fuel-indexed scan of `decodedMsg.replace(urlRegex, '')`. -/
def removeUrlsF : Nat → List Char → List Char
  | 0, l => l
  | _ + 1, [] => []
  | f + 1, c :: rest =>
    match matchUrl (c :: rest) with
    | some tail => removeUrlsF f tail
    | none => c :: removeUrlsF f rest

/-- `decodedMsg.replace(urlRegex, '')`. -/
def removeUrls (l : List Char) : List Char :=
  removeUrlsF l.length l

/-- The pattern scan for `/javascript\s*:/i` occurring anywhere in a
string. -/
def hasJsMatch : List Char → Bool
  | [] => false
  | c :: rest => (matchJsScheme (c :: rest)).isSome || hasJsMatch rest

/-! ## The submit handler -/

/-- The component's form state fields (`formData`). -/
structure FormData where
  name : List Char
  email : List Char
  message : List Char
  hp_field : List Char
deriving DecidableEq

/-- The sanitized outbound payload built by `handleSubmit`. -/
structure Payload where
  name : List Char
  email : List Char
  message : List Char
  hp_field : List Char
deriving DecidableEq

/-- The `payload` record of `handleSubmit`: entity-encoded trimmed name
sliced to 100, trimmed email sliced to 254, sanitized message, trimmed
honeypot. -/
def mkPayload (fd : FormData) : Payload :=
  { name := (encodeHtmlEntities (trimJs fd.name)).take 100
    email := (trimJs fd.email).take 254
    message := sanitizeMessage fd.message 2000
    hp_field := trimJs fd.hp_field }

/-- What the parsed JSON body of a Formspree error response can contribute:
an `errors` array (each entry an object with a `message` string) and/or a
`type` string.  `errors := some []` models a present-but-empty array (truthy
in JavaScript); `type := []` models an absent or empty `type` (falsy). -/
structure RespBody where
  errors : Option (List (List Char))
  type : List Char
deriving DecidableEq

/-- A fetch either throws (network-level exception, with the exception's
`message`) or yields a response with `ok` (2xx), `status` and a body;
`none` for the body models an unparseable (or null) JSON body, whose
`response.json()` failure the source swallows. -/
inductive FetchResult where
  | thrown (msg : List Char)
  | resp (ok : Bool) (status : Nat) (body : Option RespBody)
deriving DecidableEq

/-- How navigation to `/thank-you` happened: in-app `navigate`, or the
`window.location.href` fallback when `navigate` throws. -/
inductive Nav where
  | spa
  | hard
deriving DecidableEq

/-- The observable outcome of one `handleSubmit` run: which local rejection
fired, or acceptance (with how navigation happened), or the alerted error
text of a remote/network failure. -/
inductive Outcome where
  | rejectedName
  | rejectedEmail
  | blocked
  | tooFast
  | tooShort
  | linkOnly
  | accepted (nav : Nav)
  | remoteError (text : List Char)
deriving DecidableEq

/-- The environment of one submission attempt: elapsed milliseconds since the
form mounted, the primary and fallback fetch results, and whether in-app
navigation throws. -/
structure Env where
  elapsedMs : Nat
  primary : FetchResult
  fallback : FetchResult
  navFails : Bool
deriving DecidableEq

/-- The result of one `handleSubmit` run: the outcome, the final value of the
`isSubmitting` flag, how many fetches were issued, and the form state after
the handler returns. -/
structure SubmitResult where
  outcome : Outcome
  isSubmitting : Bool
  calls : Nat
  formData : FormData
deriving DecidableEq

/-- `x.message || x` for an entry of an error array, for entries that are
objects with a `message` string: an empty message is falsy, so the entry
itself is joined and stringifies as `[object Object]`. -/
def itemText (m : List Char) : List Char :=
  if m = [] then "[object Object]".data else m

/-- `Array.prototype.join(', ')`. -/
def joinComma : List (List Char) → List Char
  | [] => []
  | [x] => x
  | x :: y :: xs => x ++ ", ".data ++ joinComma (y :: xs)

/-- The error text built in the outer `catch (fallbackError)` block, from the
PRIMARY response: `errors` joined if present, else a nonempty `type`, else
the generic default; an empty derived text falls back to the status
template (`errText || ...`). -/
def primaryErrText (body : Option RespBody) (status : Nat) : List Char :=
  let errText :=
    match body with
    | none => "Form submission failed".data
    | some b =>
      match b.errors with
      | some es => joinComma (es.map itemText)
      | none => if b.type = [] then "Form submission failed".data else b.type
  if errText = [] then
    "Submission failed (status ".data ++ (toString status).data ++ ")".data
  else errText

/-- The `fbErr` text computed from the FALLBACK response before
`throw new Error(fbErr)`.  The throw is caught by the enclosing
`catch (fallbackError)`, which ignores its argument, so this text never
reaches the user. -/
def fallbackErrText (body : Option RespBody) (status : Nat) : List Char :=
  match body with
  | some b =>
    match b.errors with
    | some es => joinComma (es.map itemText)
    | none =>
      "Submission failed (status ".data ++ (toString status).data ++ ")".data
  | none =>
    "Submission failed (status ".data ++ (toString status).data ++ ")".data

/-- `alert(error.message || 'There was an error sending your message. ...')`
in the outer catch. -/
def alertText (msg : List Char) : List Char :=
  if msg = [] then
    "There was an error sending your message. Please try again.".data
  else msg

/-- The `handleSubmit` orchestrator, line for line:
validation of `name` and `email`, payload construction, the honeypot,
time-on-page, minimum-length and link-only gates (in source order), then the
primary JSON fetch with the form-encoded fallback, the error-text
derivation, and the `finally` that clears `isSubmitting` on every path. -/
def handleSubmit (fd : FormData) (env : Env) : SubmitResult :=
  let rawName := fd.name
  let rawEmail := fd.email
  if rawName.length = 0 ∨ 100 < rawName.length ∨ isValidName rawName = false then
    ⟨.rejectedName, false, 0, fd⟩
  else if rawEmail.length = 0 ∨ 254 < rawEmail.length
      ∨ isValidEmail rawEmail = false then
    ⟨.rejectedEmail, false, 0, fd⟩
  else
    let payload := mkPayload fd
    if payload.hp_field ≠ [] then
      ⟨.blocked, false, 0, fd⟩
    else if env.elapsedMs < 5000 then
      ⟨.tooFast, false, 0, fd⟩
    else
      let decodedMsg := stripEntities payload.message
      if decodedMsg.length < 15 then
        ⟨.tooShort, false, 0, fd⟩
      else if hasUrl decodedMsg = true
          ∧ ((removeUrls decodedMsg).filter (fun c => !(jsWs c))).length < 10 then
        ⟨.linkOnly, false, 0, fd⟩
      else
        match env.primary with
        | .thrown msg => ⟨.remoteError (alertText msg), false, 1, fd⟩
        | .resp ok status body =>
          if ok then
            ⟨.accepted (if env.navFails then .hard else .spa), false, 1, fd⟩
          else
            match env.fallback with
            | .thrown _ =>
              ⟨.remoteError (alertText (primaryErrText body status)), false, 2, fd⟩
            | .resp fbOk _ _ =>
              if fbOk then
                ⟨.accepted (if env.navFails then .hard else .spa), false, 2, fd⟩
              else
                ⟨.remoteError (alertText (primaryErrText body status)), false, 2, fd⟩

/-- The fallback request fails: it throws, or returns a non-2xx response. -/
def fallbackFails : FetchResult → Prop
  | .thrown _ => True
  | .resp ok _ _ => ok = false

/-! ## Helper lemmas -/

theorem mkPayloadHp (fd : FormData) :
    (mkPayload fd).hp_field = trimJs fd.hp_field := rfl

theorem mkPayloadMsg (fd : FormData) :
    (mkPayload fd).message = sanitizeMessage fd.message 2000 := by
  simp only [mkPayload]

theorem dropWhileId (p : Char → Bool) (l : List Char)
    (h : ∀ c ∈ l, p c = false) : l.dropWhile p = l := by
  cases l with
  | nil => rfl
  | cons c rest =>
    have hc := h c (List.mem_cons_self c rest)
    simp [List.dropWhile, hc]

theorem trimJsId (l : List Char) (h : ∀ c ∈ l, jsWs c = false) :
    trimJs l = l := by
  unfold trimJs
  rw [dropWhileId _ _ h, dropWhileId, List.reverse_reverse]
  intro c hc
  exact h c (List.mem_reverse.mp hc)

theorem stripTagsFId (f : Nat) (l : List Char) (h : '<' ∉ l) :
    stripTagsF f l = l := by
  induction f generalizing l with
  | zero => rfl
  | succ f ih =>
    cases l with
    | nil => rfl
    | cons c rest =>
      simp only [List.mem_cons, not_or] at h
      obtain ⟨h1, h2⟩ := h
      have hc : ¬ c = '<' := fun e => h1 e.symm
      simp [stripTagsF, hc, ih rest h2]

theorem matchJsSchemeNone (c : Char) (rest : List Char) (h : c.toLower ≠ 'j') :
    matchJsScheme (c :: rest) = none := by
  unfold matchJsScheme
  rw [show "javascript".data
      = 'j' :: ['a', 'v', 'a', 's', 'c', 'r', 'i', 'p', 't'] from rfl]
  simp [matchChars, h]

theorem removeJsSchemeFId (f : Nat) (l : List Char)
    (h : ∀ c ∈ l, c.toLower ≠ 'j') : removeJsSchemeF f l = l := by
  induction f generalizing l with
  | zero => rfl
  | succ f ih =>
    cases l with
    | nil => rfl
    | cons c rest =>
      rw [removeJsSchemeF, matchJsSchemeNone c rest (h c (List.mem_cons_self c rest)),
        ih rest (fun x hx => h x (List.mem_cons_of_mem c hx))]

theorem matchOnHandlerNone (c : Char) (rest : List Char) (h : c.toLower ≠ 'o') :
    matchOnHandler (c :: rest) = none := by
  unfold matchOnHandler
  rw [show "on".data = 'o' :: ['n'] from rfl]
  simp [matchChars, h]

theorem removeOnHandlersFId (f : Nat) (l : List Char)
    (h : ∀ c ∈ l, c.toLower ≠ 'o') : removeOnHandlersF f l = l := by
  induction f generalizing l with
  | zero => rfl
  | succ f ih =>
    cases l with
    | nil => rfl
    | cons c rest =>
      rw [removeOnHandlersF, matchOnHandlerNone c rest (h c (List.mem_cons_self c rest)),
        ih rest (fun x hx => h x (List.mem_cons_of_mem c hx))]

theorem collapseWsFId (f : Nat) (l : List Char)
    (h : ∀ c ∈ l, jsWs c = false) : collapseWsF f l = l := by
  induction f generalizing l with
  | zero => rfl
  | succ f ih =>
    cases l with
    | nil => rfl
    | cons c rest =>
      have hc := h c (List.mem_cons_self c rest)
      simp [collapseWsF, hc, ih rest (fun x hx => h x (List.mem_cons_of_mem c hx))]

theorem replaceCharAppend (t : Char) (r a b : List Char) :
    replaceChar t r (a ++ b) = replaceChar t r a ++ replaceChar t r b := by
  induction a with
  | nil => rfl
  | cons c cs ih =>
    by_cases hc : c = t <;> simp [replaceChar, hc, ih]

theorem encodeCons (c : Char) (l : List Char) :
    encodeHtmlEntities (c :: l) = entChar c ++ encodeHtmlEntities l := by
  by_cases h1 : c = '&'
  · subst h1; rfl
  by_cases h2 : c = '<'
  · subst h2; rfl
  by_cases h3 : c = '>'
  · subst h3; rfl
  by_cases h4 : c = '"'
  · subst h4; rfl
  by_cases h5 : c = '\''
  · subst h5; rfl
  · simp [encodeHtmlEntities, entChar, replaceChar, h1, h2, h3, h4, h5]

theorem entCharLength (c : Char) : (entChar c).length ≤ 6 := by
  unfold entChar
  repeat' split
  all_goals first | decide | simp

theorem encodeLengthLe (l : List Char) :
    (encodeHtmlEntities l).length ≤ 6 * l.length := by
  induction l with
  | nil => decide
  | cons c cs ih =>
    rw [encodeCons, List.length_append]
    have h := entCharLength c
    simp only [List.length_cons]
    omega

theorem encodeReplicateAmp (n : Nat) :
    (encodeHtmlEntities (List.replicate n '&')).length = 5 * n := by
  induction n with
  | zero => rfl
  | succ n ih =>
    rw [List.replicate_succ, encodeCons, List.length_append, ih]
    have h : (entChar '&').length = 5 := rfl
    omega

theorem sanitizeReplicateAmp :
    sanitizeMessage (List.replicate 401 '&') 2000
      = encodeHtmlEntities (List.replicate 401 '&') := by
  have hmem : ∀ c ∈ List.replicate 401 '&', c = '&' :=
    fun c hc => List.eq_of_mem_replicate hc
  show encodeHtmlEntities (truncateTo 2000 (trimJs (collapseWs
      (removeOnHandlers (removeJsScheme (stripTags
        (List.replicate 401 '&'))))))) = _
  rw [show stripTags (List.replicate 401 '&') = List.replicate 401 '&' from
    stripTagsFId _ _ (fun hm => by have := hmem '<' hm; exact absurd this (by decide))]
  rw [show removeJsScheme (List.replicate 401 '&') = List.replicate 401 '&' from
    removeJsSchemeFId _ _ (fun c hc => by rw [hmem c hc]; decide)]
  rw [show removeOnHandlers (List.replicate 401 '&') = List.replicate 401 '&' from
    removeOnHandlersFId _ _ (fun c hc => by rw [hmem c hc]; decide)]
  rw [show collapseWs (List.replicate 401 '&') = List.replicate 401 '&' from
    collapseWsFId _ _ (fun c hc => by rw [hmem c hc]; decide)]
  rw [trimJsId _ (fun c hc => by rw [hmem c hc]; decide)]
  rw [show truncateTo 2000 (List.replicate 401 '&') = List.replicate 401 '&' by
    unfold truncateTo
    rw [if_neg]
    simp]

theorem dropThroughGtLt (l l' : List Char) (h : dropThroughGt l = some l') :
    l'.length < l.length := by
  induction l generalizing l' with
  | nil => simp [dropThroughGt] at h
  | cons c rest ih =>
    by_cases hc : c = '>'
    · simp [dropThroughGt, hc] at h
      subst h
      simp
    · simp only [dropThroughGt, if_neg hc] at h
      have := ih l' h
      simp only [List.length_cons]
      omega

theorem dropThroughGtSub (l l' : List Char) (h : dropThroughGt l = some l') :
    ∀ x ∈ l', x ∈ l := by
  induction l generalizing l' with
  | nil => simp [dropThroughGt] at h
  | cons c rest ih =>
    by_cases hc : c = '>'
    · simp [dropThroughGt, hc] at h
      subst h
      exact fun x hx => List.mem_cons_of_mem c hx
    · simp only [dropThroughGt, if_neg hc] at h
      exact fun x hx => List.mem_cons_of_mem c (ih l' h x hx)

theorem dropThroughGtNone (l : List Char) : dropThroughGt l = none ↔ '>' ∉ l := by
  induction l with
  | nil => simp [dropThroughGt]
  | cons c rest ih =>
    by_cases hc : c = '>'
    · subst hc
      simp [dropThroughGt]
    · have hc2 : ¬ '>' = c := fun e => hc e.symm
      simp [dropThroughGt, hc, ih, hc2]

theorem stripTagsFEq : ∀ (f₁ f₂ : Nat) (l : List Char),
    l.length ≤ f₁ → l.length ≤ f₂ → stripTagsF f₁ l = stripTagsF f₂ l := by
  intro f₁
  induction f₁ with
  | zero =>
    intro f₂ l h1 _
    have he : l = [] := List.eq_nil_of_length_eq_zero (Nat.le_zero.mp h1)
    subst he
    cases f₂ <;> rfl
  | succ f ih =>
    intro f₂ l h1 h2
    cases l with
    | nil => cases f₂ <;> rfl
    | cons c rest =>
      cases f₂ with
      | zero => simp at h2
      | succ g =>
        simp only [List.length_cons, Nat.add_le_add_iff_right] at h1 h2
        simp only [stripTagsF]
        by_cases hc : c = '<'
        · rw [if_pos hc, if_pos hc]
          cases hd : dropThroughGt rest with
          | some rest' =>
            have hlt := dropThroughGtLt rest rest' hd
            exact ih g rest' (by omega) (by omega)
          | none =>
            exact congrArg _ (ih g rest h1 h2)
        · rw [if_neg hc, if_neg hc]
          exact congrArg _ (ih g rest h1 h2)

theorem stripTagsConsSome (rest rest' : List Char)
    (h : dropThroughGt rest = some rest') :
    stripTags ('<' :: rest) = stripTags rest' := by
  show stripTagsF ('<' :: rest).length ('<' :: rest) = stripTagsF rest'.length rest'
  rw [List.length_cons]
  simp only [stripTagsF, if_pos rfl, h]
  exact stripTagsFEq rest.length rest'.length rest'
    (Nat.le_of_lt (dropThroughGtLt rest rest' h)) (Nat.le_refl _)

theorem stripTagsConsNone (rest : List Char) (h : dropThroughGt rest = none) :
    stripTags ('<' :: rest) = '<' :: stripTags rest := by
  show stripTagsF ('<' :: rest).length ('<' :: rest) = _
  rw [List.length_cons]
  simp only [stripTagsF, if_pos rfl, h]
  rfl

theorem stripTagsConsNe (c : Char) (rest : List Char) (hc : c ≠ '<') :
    stripTags (c :: rest) = c :: stripTags rest := by
  show stripTagsF (c :: rest).length (c :: rest) = _
  rw [List.length_cons]
  simp only [stripTagsF, if_neg hc]
  rfl

theorem stripTagsSubAux : ∀ (n : Nat) (l : List Char), l.length ≤ n →
    ∀ x ∈ stripTags l, x ∈ l := by
  intro n
  induction n with
  | zero =>
    intro l hl x hx
    have he : l = [] := List.eq_nil_of_length_eq_zero (Nat.le_zero.mp hl)
    subst he
    rw [show stripTags ([] : List Char) = [] from rfl] at hx
    simp at hx
  | succ n ih =>
    intro l hl x hx
    cases l with
    | nil =>
      rw [show stripTags ([] : List Char) = [] from rfl] at hx
      simp at hx
    | cons c rest =>
      simp only [List.length_cons, Nat.add_le_add_iff_right] at hl
      by_cases hc : c = '<'
      · subst hc
        cases hd : dropThroughGt rest with
        | some rest' =>
          rw [stripTagsConsSome rest rest' hd] at hx
          have hlen : rest'.length ≤ n := by
            have := dropThroughGtLt rest rest' hd
            omega
          exact List.mem_cons_of_mem _
            (dropThroughGtSub rest rest' hd x (ih rest' hlen x hx))
        | none =>
          rw [stripTagsConsNone rest hd] at hx
          rcases List.mem_cons.mp hx with h | h
          · exact List.mem_cons.mpr (Or.inl h)
          · exact List.mem_cons_of_mem _ (ih rest hl x h)
      · rw [stripTagsConsNe c rest hc] at hx
        rcases List.mem_cons.mp hx with h | h
        · exact List.mem_cons.mpr (Or.inl h)
        · exact List.mem_cons_of_mem _ (ih rest hl x h)

theorem stripTagsSubset (l : List Char) : ∀ x ∈ stripTags l, x ∈ l :=
  stripTagsSubAux l.length l (Nat.le_refl _)

theorem stripTagsIdemAux : ∀ (n : Nat) (l : List Char), l.length ≤ n →
    stripTags (stripTags l) = stripTags l := by
  intro n
  induction n with
  | zero =>
    intro l hl
    have he : l = [] := List.eq_nil_of_length_eq_zero (Nat.le_zero.mp hl)
    subst he
    rfl
  | succ n ih =>
    intro l hl
    cases l with
    | nil => rfl
    | cons c rest =>
      simp only [List.length_cons, Nat.add_le_add_iff_right] at hl
      by_cases hc : c = '<'
      · subst hc
        cases hd : dropThroughGt rest with
        | some rest' =>
          rw [stripTagsConsSome rest rest' hd]
          have := dropThroughGtLt rest rest' hd
          exact ih rest' (by omega)
        | none =>
          rw [stripTagsConsNone rest hd]
          have hgt : '>' ∉ rest := (dropThroughGtNone rest).mp hd
          have hgt2 : '>' ∉ stripTags rest :=
            fun hm => hgt (stripTagsSubset rest '>' hm)
          rw [stripTagsConsNone (stripTags rest) ((dropThroughGtNone _).mpr hgt2)]
          exact congrArg _ (ih rest hl)
      · rw [stripTagsConsNe c rest hc, stripTagsConsNe c (stripTags rest) hc]
        exact congrArg _ (ih rest hl)

theorem matchCharsLen (p : List Char) : ∀ (l r : List Char),
    matchChars p l = some r → r.length + p.length = l.length := by
  induction p with
  | nil =>
    intro l r h
    simp [matchChars] at h
    subst h
    simp
  | cons pc ps ih =>
    intro l r h
    cases l with
    | nil => simp [matchChars] at h
    | cons c cs =>
      by_cases hc : c.toLower = pc
      · rw [matchChars, if_pos hc] at h
        have := ih cs r h
        simp only [List.length_cons]
        omega
      · rw [matchChars, if_neg hc] at h
        simp at h

theorem lenDropWhileLe (p : Char → Bool) (l : List Char) :
    (l.dropWhile p).length ≤ l.length := by
  induction l with
  | nil => exact Nat.le_refl _
  | cons c rest ih =>
    cases hpc : p c with
    | false => simp [List.dropWhile, hpc]
    | true =>
      simp only [List.dropWhile, hpc]
      exact Nat.le_succ_of_le ih

theorem dropWhileLt (p : Char → Bool) (l : List Char)
    (h : (l.takeWhile p).isEmpty = false) :
    (l.dropWhile p).length < l.length := by
  cases l with
  | nil => simp [List.takeWhile] at h
  | cons c rest =>
    cases hpc : p c with
    | false => simp [List.takeWhile, hpc] at h
    | true =>
      simp only [List.dropWhile, hpc, List.length_cons]
      exact Nat.lt_succ_of_le (lenDropWhileLe p rest)

theorem matchJsLen (l tail : List Char) (h : matchJsScheme l = some tail) :
    tail.length < l.length := by
  unfold matchJsScheme at h
  split at h
  · simp at h
  case _ r heq =>
    split at h
    case _ tail' heq2 =>
      have hr := matchCharsLen "javascript".data l r heq
      rw [show ("javascript".data).length = 10 from rfl] at hr
      have hd := lenDropWhileLe jsWs r
      rw [heq2] at hd
      simp only [List.length_cons] at hd
      have ht : tail' = tail := by injection h
      subst ht
      omega
    · simp at h

theorem matchOnLen (l tail : List Char) (h : matchOnHandler l = some tail) :
    tail.length < l.length := by
  unfold matchOnHandler at h
  split at h
  · simp at h
  case _ r heq =>
    split at h
    · simp at h
    case _ hne =>
      have hr := matchCharsLen "on".data l r heq
      rw [show ("on".data).length = 2 from rfl] at hr
      have hw : ((r.dropWhile isWordChar).dropWhile jsWs).length < r.length := by
        have h1 : (r.dropWhile isWordChar).length < r.length :=
          dropWhileLt isWordChar r (Bool.not_eq_true _ ▸ (by simpa using hne))
        have h2 := lenDropWhileLe jsWs (r.dropWhile isWordChar)
        omega
      split at h
      case _ r3 heq3 =>
        split at h
        case _ q r5 heq5 =>
          split at h
          case isTrue hq =>
            split at h
            case _ q2 tail' heq6 =>
              split at h
              case isTrue hq2 =>
                have ht : tail' = tail := by injection h
                subst ht
                have h3 : r3.length + 1 ≤ r.length := by
                  rw [heq3] at hw
                  simp only [List.length_cons] at hw
                  omega
                have h5 : r5.length + 1 ≤ r3.length := by
                  have := lenDropWhileLe jsWs r3
                  rw [heq5] at this
                  simp only [List.length_cons] at this
                  omega
                have h6 : tail'.length + 1 ≤ r5.length := by
                  have := lenDropWhileLe (fun c => !(quoteChar c)) r5
                  rw [heq6] at this
                  simp only [List.length_cons] at this
                  omega
                omega
              case isFalse => simp at h
            · simp at h
          case isFalse => simp at h
        · simp at h
      · simp at h

theorem removeJsLenLe : ∀ (f : Nat) (l : List Char),
    (removeJsSchemeF f l).length ≤ l.length := by
  intro f
  induction f with
  | zero => intro l; exact Nat.le_refl _
  | succ f ih =>
    intro l
    cases l with
    | nil => exact Nat.le_refl _
    | cons c rest =>
      simp only [removeJsSchemeF]
      cases hm : matchJsScheme (c :: rest) with
      | some tail =>
        have h1 := matchJsLen (c :: rest) tail hm
        have h2 := ih tail
        simp only [List.length_cons] at h1 ⊢
        omega
      | none =>
        simp only [List.length_cons]
        have := ih rest
        omega

theorem removeJsLenLt : ∀ (f : Nat) (l : List Char), l.length ≤ f →
    hasJsMatch l = true → (removeJsSchemeF f l).length < l.length := by
  intro f
  induction f with
  | zero =>
    intro l hl hm
    have he : l = [] := List.eq_nil_of_length_eq_zero (Nat.le_zero.mp hl)
    subst he
    simp [hasJsMatch] at hm
  | succ f ih =>
    intro l hl hm
    cases l with
    | nil => simp [hasJsMatch] at hm
    | cons c rest =>
      simp only [List.length_cons, Nat.add_le_add_iff_right] at hl
      simp only [removeJsSchemeF]
      cases hmc : matchJsScheme (c :: rest) with
      | some tail =>
        have h1 := matchJsLen (c :: rest) tail hmc
        have h2 := removeJsLenLe f tail
        simp only [List.length_cons] at h1 ⊢
        omega
      | none =>
        have hm2 : hasJsMatch rest = true := by
          simp only [hasJsMatch, hmc, Option.isSome_none, Bool.false_or] at hm
          exact hm
        have := ih rest hl hm2
        simp only [List.length_cons]
        omega

theorem removeOnLenLe : ∀ (f : Nat) (l : List Char),
    (removeOnHandlersF f l).length ≤ l.length := by
  intro f
  induction f with
  | zero => intro l; exact Nat.le_refl _
  | succ f ih =>
    intro l
    cases l with
    | nil => exact Nat.le_refl _
    | cons c rest =>
      simp only [removeOnHandlersF]
      cases hm : matchOnHandler (c :: rest) with
      | some tail =>
        have h1 := matchOnLen (c :: rest) tail hm
        have h2 := ih tail
        simp only [List.length_cons] at h1 ⊢
        omega
      | none =>
        simp only [List.length_cons]
        have := ih rest
        omega

theorem removeJsWrapLe (l : List Char) : (removeJsScheme l).length ≤ l.length :=
  removeJsLenLe l.length l

theorem removeOnWrapLe (l : List Char) :
    (removeOnHandlers l).length ≤ l.length :=
  removeOnLenLe l.length l

theorem removeJsWrapLt (l : List Char) (h : hasJsMatch l = true) :
    (removeJsScheme l).length < l.length :=
  removeJsLenLt l.length l (Nat.le_refl _) h

/-! ## Claim theorems -/

/-- Claim C8: for every input string and limit, `sanitizeMessage` equals the
composition strip tags, then remove dangerous URIs, then collapse whitespace
and trim, then truncate, then — as the last step — encode HTML entities. -/
theorem sanitize_is_ordered_composition (s : List Char) (maxLen : Nat) :
    sanitizeMessage s maxLen = sanitizeMessageSpec s maxLen := rfl

/-- Claim C9: on every exit path of the submit handler — local validation
rejection, each anti-spam rejection, primary success, fallback success,
remote rejection, and network exception — the `isSubmitting` flag is `false`
when the handler completes. -/
theorem submit_flag_cleared_on_every_path (fd : FormData) (env : Env) :
    (handleSubmit fd env).isSubmitting = false := by
  obtain ⟨ems, pr, fb, nav⟩ := env
  simp only [handleSubmit]
  repeat' split
  all_goals rfl

/-- Claim C10: the submit handler never writes back into the form state: for
every outcome the stored field values equal their values at submission
time (the sanitized payload is a separate derived record). -/
theorem submit_preserves_form_state (fd : FormData) (env : Env) :
    (handleSubmit fd env).formData = fd := by
  obtain ⟨ems, pr, fb, nav⟩ := env
  simp only [handleSubmit]
  repeat' split
  all_goals rfl

/-- Claim C4 (counterexample): a message of 401 ampersands is unchanged by
every stage before encoding (no tags, no dangerous URIs, no whitespace,
within the 2000 limit), but entity encoding expands each `&` to the five
characters of `&amp;`, so the payload message has 2005 > 2000 characters. -/
theorem sanitized_message_can_exceed_limit :
    2000 < (sanitizeMessage (List.replicate 401 '&') 2000).length := by
  rw [sanitizeReplicateAmp, encodeReplicateAmp]
  omega

/-- Claim C4 (amended): the message pipeline truncates to at most 2000
characters before entity encoding, and since each character encodes to at
most six characters, the encoded payload message has at most
6 × 2000 = 12000 characters (it can exceed 2000, see the counterexample). -/
theorem sanitized_message_bounds (s : List Char) :
    (truncateTo 2000 (trimJs (collapseWs (removeDangerousUris (stripTags s))))).length
        ≤ 2000
    ∧ (sanitizeMessage s 2000).length ≤ 12000 := by
  have hpre : (truncateTo 2000 (trimJs (collapseWs
      (removeDangerousUris (stripTags s))))).length ≤ 2000 := by
    unfold truncateTo
    split
    · rw [List.length_take]
      exact Nat.min_le_left _ _
    case isFalse h => omega
  refine ⟨hpre, ?_⟩
  rw [show sanitizeMessage s 2000 = encodeHtmlEntities (truncateTo 2000
      (trimJs (collapseWs (removeDangerousUris (stripTags s))))) from rfl]
  have h2 := encodeLengthLe (truncateTo 2000
    (trimJs (collapseWs (removeDangerousUris (stripTags s)))))
  omega

/-- Claim C6 (amended): of the three sanitizers only `stripTags` is
idempotent — a surviving `<` never has a `>` after it, so a second pass finds
no tag; `removeDangerousUris` and `encodeHtmlEntities` are not idempotent
(see the counterexample). -/
theorem strip_tags_idempotent (l : List Char) :
    stripTags (stripTags l) = stripTags l :=
  stripTagsIdemAux l.length l (Nat.le_refl _)

/-- Claim C7 (amended): a single application of `removeDangerousUris` can
leave a `javascript:` occurrence spliced together from removal remnants
(see the counterexample), but every fixed point of `removeDangerousUris`
contains no occurrence of the scheme pattern: each removal strictly shortens
the string, so an unchanged string had no match. -/
theorem remove_dangerous_fixed_point_clean (l : List Char)
    (h : removeDangerousUris l = l) : hasJsMatch l = false := by
  have h1 : (removeOnHandlers (removeJsScheme l)).length = l.length :=
    congrArg List.length h
  have h2 := removeOnWrapLe (removeJsScheme l)
  cases hm : hasJsMatch l with
  | false => rfl
  | true =>
    have h4 := removeJsWrapLt l hm
    omega

/-- Witness for C7's amended theorem: `hello` is a fixed point of
`removeDangerousUris` and contains no scheme pattern. -/
theorem remove_dangerous_fixed_point_clean_witness :
    removeDangerousUris "hello".data = "hello".data
    ∧ hasJsMatch "hello".data = false :=
  ⟨by decide, remove_dangerous_fixed_point_clean "hello".data (by decide)⟩

/-- Claim C5 (counterexample): with valid name and email, empty honeypot and
ample elapsed time, the message `http://x.com` is rejected by the
minimum-content-length gate (its decoded form has 12 < 15 characters), not
by the link-density gate, which is never reached. -/
theorem url_only_message_hits_min_length_first :
    (handleSubmit ⟨"Al".data, "a@b.c".data, "http://x.com".data, []⟩
        ⟨10000, .resp true 200 none, .resp true 200 none, false⟩)
      = ⟨.tooShort, false, 0, ⟨"Al".data, "a@b.c".data, "http://x.com".data, []⟩⟩
    ∧ Outcome.tooShort ≠ Outcome.linkOnly := by decide

/-- Claim C6 (counterexample): `encodeHtmlEntities` is not idempotent
(a second application re-encodes the introduced ampersand), and
`removeDangerousUris` is not idempotent (removing an occurrence of
`javascript:` can splice the surrounding fragments into a fresh
occurrence). -/
theorem encode_and_remove_not_idempotent :
    encodeHtmlEntities (encodeHtmlEntities "&".data) ≠ encodeHtmlEntities "&".data
    ∧ removeDangerousUris (removeDangerousUris "javajavascript:script:".data)
        ≠ removeDangerousUris "javajavascript:script:".data := by decide

/-- Claim C7 (counterexample): removing an inline event-handler attribute can
splice the surrounding fragments into a `javascript:` occurrence, so the
output of `removeDangerousUris` can contain the scheme pattern. -/
theorem remove_dangerous_output_can_contain_scheme :
    hasJsMatch (removeDangerousUris "javasconx=\"y\"ript:".data) = true := by
  decide

/-- Claim C2 (counterexample): a honeypot value of a single space is a
non-empty string, yet the handler trims it before the check, so the
submission proceeds and the primary network request is issued. -/
theorem whitespace_honeypot_reaches_network :
    (FormData.mk "Al".data "a@b.c".data
        "hello there my friend how are you today".data " ".data).hp_field ≠ []
    ∧ (handleSubmit
        ⟨"Al".data, "a@b.c".data,
          "hello there my friend how are you today".data, " ".data⟩
        ⟨10000, .resp true 200 none, .resp true 200 none, false⟩).calls = 1
    ∧ (handleSubmit
        ⟨"Al".data, "a@b.c".data,
          "hello there my friend how are you today".data, " ".data⟩
        ⟨10000, .resp true 200 none, .resp true 200 none, false⟩).outcome
      = .accepted .spa := by decide

/-- Claim C1 (counterexample): when the primary response carries only a
`type` string and the failing fallback response carries a structured error
list, the alerted text is the primary's `type`, not the fallback's joined
error list — the fallback-derived `fbErr` is thrown into the enclosing
`catch (fallbackError)`, which discards it. -/
theorem alert_uses_primary_not_fallback_errors :
    (handleSubmit
        ⟨"Al".data, "a@b.c".data,
          "hello there my friend this is a test".data, []⟩
        ⟨10000, .resp false 422 (some ⟨none, "error_type_x".data⟩),
          .resp false 400 (some ⟨some ["fallback msg".data], []⟩),
          false⟩).outcome
      = .remoteError "error_type_x".data
    ∧ fallbackErrText (some ⟨some ["fallback msg".data], []⟩) 400
      = "fallback msg".data
    ∧ ("error_type_x".data : List Char) ≠ "fallback msg".data := by decide

/-- Claim C5 (amended): for the submission with name `Al`, email `a@b.c`,
message `http://x.com`, empty honeypot and any environment whose elapsed
time meets the minimum, the handler rejects locally via the
minimum-content-length heuristic (decoded length 12 < 15); the link-density
heuristic is never evaluated and no request is issued. -/
theorem url_only_message_too_short (env : Env) (h : 5000 ≤ env.elapsedMs) :
    handleSubmit ⟨"Al".data, "a@b.c".data, "http://x.com".data, []⟩ env
      = ⟨.tooShort, false, 0,
          ⟨"Al".data, "a@b.c".data, "http://x.com".data, []⟩⟩ := by
  simp only [handleSubmit]
  rw [if_neg (by decide), if_neg (by decide), if_neg (by decide),
    if_neg (by omega), if_pos (by decide)]

/-- Witness for C5's amended theorem at elapsed time 10000 ms. -/
theorem url_only_message_too_short_witness :
    5000 ≤ (10000 : Nat)
    ∧ handleSubmit ⟨"Al".data, "a@b.c".data, "http://x.com".data, []⟩
        ⟨10000, .resp true 200 none, .resp true 200 none, false⟩
      = ⟨.tooShort, false, 0,
          ⟨"Al".data, "a@b.c".data, "http://x.com".data, []⟩⟩ :=
  ⟨by norm_num,
    url_only_message_too_short
      ⟨10000, .resp true 200 none, .resp true 200 none, false⟩ (by norm_num)⟩

/-- Claim C2 (amended): if the honeypot value is non-empty after trimming,
no network request is issued; if name and email validation also pass, the
outcome is the local blocked rejection.  (A whitespace-only honeypot — a
non-empty string — trims to empty and is not treated as a bot, see the
counterexample.) -/
theorem trimmed_honeypot_blocks (fd : FormData) (env : Env)
    (h : trimJs fd.hp_field ≠ []) :
    (handleSubmit fd env).calls = 0
    ∧ (¬(fd.name.length = 0 ∨ 100 < fd.name.length
          ∨ isValidName fd.name = false) →
       ¬(fd.email.length = 0 ∨ 254 < fd.email.length
          ∨ isValidEmail fd.email = false) →
       (handleSubmit fd env).outcome = .blocked) := by
  simp only [handleSubmit]
  by_cases h1 : fd.name.length = 0 ∨ 100 < fd.name.length
      ∨ isValidName fd.name = false
  · rw [if_pos h1]
    exact ⟨rfl, fun hn _ => absurd h1 hn⟩
  · rw [if_neg h1]
    by_cases h2 : fd.email.length = 0 ∨ 254 < fd.email.length
        ∨ isValidEmail fd.email = false
    · rw [if_pos h2]
      exact ⟨rfl, fun _ hn => absurd h2 hn⟩
    · have h' : (mkPayload fd).hp_field ≠ [] := h
      rw [if_neg h2, if_pos h']
      exact ⟨rfl, fun _ _ => rfl⟩

/-- Witness for C2's amended theorem: honeypot `x`, valid name and email. -/
theorem trimmed_honeypot_blocks_witness :
    trimJs "x".data ≠ []
    ∧ (handleSubmit ⟨"Al".data, "a@b.c".data, "hi".data, "x".data⟩
        ⟨10000, .resp true 200 none, .resp true 200 none, false⟩).calls = 0
    ∧ (handleSubmit ⟨"Al".data, "a@b.c".data, "hi".data, "x".data⟩
        ⟨10000, .resp true 200 none, .resp true 200 none, false⟩).outcome
      = .blocked :=
  ⟨by decide,
    (trimmed_honeypot_blocks ⟨"Al".data, "a@b.c".data, "hi".data, "x".data⟩
      ⟨10000, .resp true 200 none, .resp true 200 none, false⟩ (by decide)).1,
    (trimmed_honeypot_blocks ⟨"Al".data, "a@b.c".data, "hi".data, "x".data⟩
      ⟨10000, .resp true 200 none, .resp true 200 none, false⟩ (by decide)).2
      (by decide) (by decide)⟩

/-- Claim C3 (amended): only the message is handled by truncation — a name
over 100 characters is locally rejected, an email over 254 characters is
locally rejected (when the name passes), while a message of any length is
never a reason for local rejection: with the other gates passed, the
submission reaches the network with the message truncated inside
`sanitizeMessage`. -/
theorem ceilings_reject_name_email_not_message :
    (∀ (fd : FormData) (env : Env), 100 < fd.name.length →
        (handleSubmit fd env).outcome = .rejectedName)
    ∧ (∀ (fd : FormData) (env : Env),
        ¬(fd.name.length = 0 ∨ 100 < fd.name.length
          ∨ isValidName fd.name = false) →
        254 < fd.email.length →
        (handleSubmit fd env).outcome = .rejectedEmail)
    ∧ (∀ (fd : FormData) (env : Env),
        ¬(fd.name.length = 0 ∨ 100 < fd.name.length
          ∨ isValidName fd.name = false) →
        ¬(fd.email.length = 0 ∨ 254 < fd.email.length
          ∨ isValidEmail fd.email = false) →
        trimJs fd.hp_field = [] →
        5000 ≤ env.elapsedMs →
        15 ≤ (stripEntities (sanitizeMessage fd.message 2000)).length →
        ¬(hasUrl (stripEntities (sanitizeMessage fd.message 2000)) = true
          ∧ ((removeUrls (stripEntities (sanitizeMessage fd.message 2000))).filter
              (fun c => !(jsWs c))).length < 10) →
        1 ≤ (handleSubmit fd env).calls) := by
  refine ⟨?_, ?_, ?_⟩
  · intro fd env h
    simp only [handleSubmit]
    rw [if_pos (Or.inr (Or.inl h))]
  · intro fd env h1 h2
    simp only [handleSubmit]
    rw [if_neg h1, if_pos (Or.inr (Or.inl h2))]
  · intro fd env h1 h2 h3 h4 h5 h6
    obtain ⟨ems, pr, fb, nav⟩ := env
    simp only [handleSubmit, mkPayloadHp, mkPayloadMsg]
    have h3' : ¬(trimJs fd.hp_field ≠ []) := fun hn => hn h3
    have h5' : ¬((stripEntities (sanitizeMessage fd.message 2000)).length < 15) := by
      omega
    have h4'' : 5000 ≤ ems := h4
    have h4' : ¬(ems < 5000) := by omega
    rw [if_neg h1, if_neg h2, if_neg h3', if_neg h4', if_neg h5', if_neg h6]
    cases pr with
    | thrown m => simp
    | resp ok st bd =>
      cases ok with
      | true => simp
      | false =>
        cases fb with
        | thrown m2 => simp
        | resp f1 f2 f3 => cases f1 <;> simp

/-- Witness for C3's amended theorem: a 101-character name is rejected; a
255-character email is rejected; a short valid message (like any message,
of any length) is not rejected for length and the request is issued. -/
theorem ceilings_witness :
    (100 < (List.replicate 101 'a').length
      ∧ (handleSubmit ⟨List.replicate 101 'a', "a@b.c".data, "hello".data, []⟩
          ⟨10000, .resp true 200 none, .resp true 200 none, false⟩).outcome
        = .rejectedName)
    ∧ (254 < (List.replicate 255 'e').length
      ∧ (handleSubmit ⟨"Al".data, List.replicate 255 'e', "hello".data, []⟩
          ⟨10000, .resp true 200 none, .resp true 200 none, false⟩).outcome
        = .rejectedEmail)
    ∧ 1 ≤ (handleSubmit
        ⟨"Al".data, "a@b.c".data, "hello there my friend how are you".data, []⟩
        ⟨10000, .resp true 200 none, .resp true 200 none, false⟩).calls :=
  ⟨⟨by decide,
      ceilings_reject_name_email_not_message.1
        ⟨List.replicate 101 'a', "a@b.c".data, "hello".data, []⟩
        ⟨10000, .resp true 200 none, .resp true 200 none, false⟩ (by decide)⟩,
    ⟨by decide,
      ceilings_reject_name_email_not_message.2.1
        ⟨"Al".data, List.replicate 255 'e', "hello".data, []⟩
        ⟨10000, .resp true 200 none, .resp true 200 none, false⟩
        (by decide) (by decide)⟩,
    ceilings_reject_name_email_not_message.2.2
      ⟨"Al".data, "a@b.c".data, "hello there my friend how are you".data, []⟩
      ⟨10000, .resp true 200 none, .resp true 200 none, false⟩
      (by decide) (by decide) (by decide) (by norm_num) (by decide) (by decide)⟩

/-- Claim C1 (amended): when the primary request returns non-2xx and the
fallback also fails, the alerted error text is derived from the PRIMARY
response — its structured error list joined by commas if present, else its
nonempty `type`, else generic text (`Form submission failed`, or the status
template when the derived text is empty); the fallback response's parsed
error text (`fbErr`) is computed but discarded by `catch (fallbackError)`.
In the §8 HTTP-422 case the alerted text is `bad email` and the handler
returns to idle. -/
theorem submit_error_text_from_primary (fd : FormData) (ems ps : Nat)
    (pb : Option RespBody) (fb : FetchResult) (nav : Bool)
    (hfb : fallbackFails fb)
    (h1 : ¬(fd.name.length = 0 ∨ 100 < fd.name.length
        ∨ isValidName fd.name = false))
    (h2 : ¬(fd.email.length = 0 ∨ 254 < fd.email.length
        ∨ isValidEmail fd.email = false))
    (h3 : trimJs fd.hp_field = [])
    (h4 : 5000 ≤ ems)
    (h5 : 15 ≤ (stripEntities (sanitizeMessage fd.message 2000)).length)
    (h6 : ¬(hasUrl (stripEntities (sanitizeMessage fd.message 2000)) = true
        ∧ ((removeUrls (stripEntities (sanitizeMessage fd.message 2000))).filter
            (fun c => !(jsWs c))).length < 10)) :
    handleSubmit fd ⟨ems, .resp false ps pb, fb, nav⟩
      = ⟨.remoteError (alertText (primaryErrText pb ps)), false, 2, fd⟩ := by
  simp only [handleSubmit, mkPayloadHp, mkPayloadMsg]
  have h3' : ¬(trimJs fd.hp_field ≠ []) := fun hn => hn h3
  have h5' : ¬((stripEntities (sanitizeMessage fd.message 2000)).length < 15) := by
    omega
  have h4' : ¬(ems < 5000) := by omega
  rw [if_neg h1, if_neg h2, if_neg h3', if_neg h4', if_neg h5', if_neg h6]
  cases fb with
  | thrown m => rfl
  | resp ok st bd =>
    have hok : ok = false := hfb
    subst hok
    rfl

/-- Witness for C1's amended theorem: the §8 scenario — primary HTTP 422
with errors `[{message: "bad email"}]`, fallback failing with HTTP 400 —
alerts `bad email` and leaves the handler idle after two requests. -/
theorem submit_error_text_witness :
    fallbackFails (.resp false 400 none)
    ∧ handleSubmit
        ⟨"Al".data, "a@b.c".data, "hello there my friend this is fine".data, []⟩
        ⟨10000, .resp false 422 (some ⟨some ["bad email".data], []⟩),
          .resp false 400 none, false⟩
      = ⟨.remoteError "bad email".data, false, 2,
          ⟨"Al".data, "a@b.c".data,
            "hello there my friend this is fine".data, []⟩⟩ := by
  refine ⟨rfl, ?_⟩
  have h := submit_error_text_from_primary
    ⟨"Al".data, "a@b.c".data, "hello there my friend this is fine".data, []⟩
    10000 422 (some ⟨some ["bad email".data], []⟩) (.resp false 400 none)
    false rfl (by decide) (by decide) (by decide) (by norm_num)
    (by decide) (by decide)
  rw [h]
  decide

/-- Claim C3 (counterexample): a 101-character name whose every character is
in the allowlist (its 100-character truncation is a valid name) is locally
rejected by the length ceiling rather than truncated. -/
theorem over_ceiling_name_locally_rejected :
    (handleSubmit
        ⟨List.replicate 101 'a', "a@b.c".data,
          "hello there my friend".data, []⟩
        ⟨10000, .resp true 200 none, .resp true 200 none, false⟩).outcome
      = .rejectedName
    ∧ 100 < (List.replicate 101 'a').length
    ∧ isValidName ((List.replicate 101 'a').take 100) = true := by decide

end ContactForm
